import Mathlib

/-!
Verification of the client-side data-access layer of the pubky-ical calendar
application (pubky-ical-poc).

The development shallowly embeds the TypeScript source:

* `PubkyClient` (src/lib/pubky-client.ts) — the singleton facade around the
  storage runtime.  Its mutable fields become an explicit `ClientState`; the
  external SDK calls (`session.storage.putBytes`, `session.storage.delete`,
  `publicStorage.getBytes`, `session.signout`) become oracle functions that
  the theorems quantify over, and every call the facade actually issues to
  the runtime is recorded in a `trace` field so that claims about "zero
  network calls" are about the trace.
* URI utilities (src/lib/nexus.ts, and the inline URI handling in the
  calendar services) — pure functions over `String` / `List Char`, with the
  JavaScript string primitives (`split`, `replace` of the first occurrence,
  `startsWith`, regex matching of the one pattern used) modelled exactly.
* The calendar services (calendar-service.ts, calendar-fetch-service.ts,
  calendar-list-service.ts) — functions parameterised by the oracles for
  the runtime results and for JSON parsing / schema hydration (the WASM
  `fromJson` constructors are external to the repository).

A value of type `Option String` models a TypeScript `string | null |
undefined` argument, with `none` standing for both `null` and `undefined`
(the source only ever tests them with falsiness checks, which cannot tell
them apart).  Byte arrays are `List Nat`.  A function that can throw is
given an explicit outcome type with a `raised` constructor; a function the
source makes total is total here.
-/

/-! ## JavaScript string primitives -/

/-- Exact model of the JavaScript `s.split(sep)` for a one-character
separator: splits on every occurrence, keeping empty parts, and returns
`[s]` (here `[[]]` for the empty string) when the separator is absent. -/
def jsSplitChar (sep : Char) : List Char → List (List Char)
  | [] => [[]]
  | c :: rest =>
    if c = sep then [] :: jsSplitChar sep rest
    else
      match jsSplitChar sep rest with
      | [] => [[c]]
      | p :: ps => (c :: p) :: ps

/-- Exact model of the JavaScript `s.replace(pat, rep)` for string `pat`:
replaces only the first (leftmost) occurrence; returns the input unchanged
when `pat` does not occur. -/
def jsReplaceFirst (pat rep : List Char) : List Char → List Char
  | [] => if pat = [] then rep else []
  | c :: rest =>
    if pat.isPrefixOf (c :: rest) then rep ++ (c :: rest).drop pat.length
    else c :: jsReplaceFirst pat rep rest

/-! ## The PubkyClient facade (src/lib/pubky-client.ts)

The class fields `currentSession` (and, for observability, the sequence of
calls issued to the storage runtime) become an explicit state record.  The
`Session` object handed out by the SDK is opaque to the facade, so it is
modelled as a bare token. -/

/-- Opaque session handle returned by the storage runtime SDK. -/
structure Session where
  token : Nat
deriving DecidableEq

/-- One call issued by the facade to the storage runtime.  The trace of
these calls is the observable "network activity" of the facade. -/
inductive RuntimeCall where
  | putBytes (path : String) (content : List Nat)
  | deleteCall (path : String)
  | getBytes (address : String)
  | signoutRemote
deriving DecidableEq

/-- The mutable state of the `PubkyClient` singleton: the `currentSession`
field, plus the trace of runtime calls made so far. -/
structure ClientState where
  currentSession : Option Session
  trace : List RuntimeCall
deriving DecidableEq

/-- Result of `publicStorage.getBytes` as seen by the facade: bytes were
found, the resource is absent (the SDK resolved with null), or the SDK
raised a transport-level error. -/
inductive GetResult where
  | found (bytes : List Nat)
  | absent
  | transportError
deriving DecidableEq

/-- Outcome of a facade read: the returned value, or a raised exception. -/
inductive GetOutcome where
  | result (r : Option (List Nat))
  | raised
deriving DecidableEq

namespace PubkyClient

/-- Model of `PubkyClient.put` (src/lib/pubky-client.ts lines 77-90).
With no `currentSession` the method logs and returns `false` without
touching the runtime.  Otherwise it calls `session.storage.putBytes`
(recorded in the trace); the oracle `rt` says whether that call resolves
(`true`) or throws — a throw is caught and turned into `false`. -/
def put (rt : String → List Nat → Bool) (s : ClientState)
    (path : String) (content : List Nat) : Bool × ClientState :=
  match s.currentSession with
  | none => (false, s)
  | some _ =>
    (rt path content,
     { s with trace := s.trace ++ [RuntimeCall.putBytes path content] })

/-- Model of `PubkyClient.delete` (src/lib/pubky-client.ts lines 96-109);
same contract as `put`, with the oracle `rt` giving the outcome of
`session.storage.delete`. -/
def delete (rt : String → Bool) (s : ClientState) (path : String) :
    Bool × ClientState :=
  match s.currentSession with
  | none => (false, s)
  | some _ =>
    (rt path, { s with trace := s.trace ++ [RuntimeCall.deleteCall path] })

/-- Model of `PubkyClient.get` (src/lib/pubky-client.ts lines 60-71), after
initialization.  The whole body is inside a try/catch whose catch branch
logs and returns null, so a transport error from the oracle also yields
`none`; the method never raises.  (An empty byte array is an object and is
truthy in JavaScript, so `bytes || null` returns it unchanged.) -/
def get (rt : String → GetResult) (url : String) : GetOutcome :=
  match rt url with
  | GetResult.found b => GetOutcome.result (some b)
  | GetResult.absent => GetOutcome.result none
  | GetResult.transportError => GetOutcome.result none

/-- Outcome of `PubkyClient.signout`: the method either completes with a
new client state or raises. -/
inductive SignoutOutcome where
  | completed (s : ClientState)
  | raised (s : ClientState)
deriving DecidableEq

/-- Model of `PubkyClient.signout` (src/lib/pubky-client.ts lines 186-195).
With a session held it awaits `session.signout()` inside a try/catch that
only logs, so control continues whether the remote call succeeds
(`remoteOk = true`) or throws, and then `currentSession` is set to null.
With no session the method is a no-op. -/
def signout (remoteOk : Bool) (s : ClientState) : SignoutOutcome :=
  match s.currentSession with
  | none => SignoutOutcome.completed s
  | some _ =>
    SignoutOutcome.completed
      { s with
        currentSession := none
        trace := s.trace ++ [RuntimeCall.signoutRemote] }

end PubkyClient

/-! ## URI utilities (src/lib/nexus.ts) -/

/-- The character list of the scheme prefix of fully-qualified pubky URIs. -/
def pubkyPrefix : List Char := "pubky://".data

/-- Model of `extractFileId` (src/lib/nexus.ts lines 58-63): a falsy input
(null, undefined, the empty string) gives null; otherwise the input is
split on every slash and the last part is returned, with an empty last
part collapsed to null by the `|| null`.  Note the source performs no
scheme-prefix check here. -/
def extractFileId (uri : Option String) : Option String :=
  match uri with
  | none => none
  | some u =>
    if u.data = [] then none
    else
      match (jsSplitChar '/' u.data).getLast? with
      | none => none
      | some last => if last = [] then none else some (String.mk last)

/-- Model of `extractPublicKey` (src/lib/nexus.ts lines 71-77): a falsy
input or one that does not start with the scheme prefix gives null;
otherwise the first occurrence of the prefix is removed, the remainder is
split on slashes, and the first part is returned (empty collapsed to
null). -/
def extractPublicKey (uri : Option String) : Option String :=
  match uri with
  | none => none
  | some u =>
    if u.data = [] then none
    else if pubkyPrefix.isPrefixOf u.data = false then none
    else
      match (jsSplitChar '/' (jsReplaceFirst pubkyPrefix [] u.data)).head? with
      | none => none
      | some k => if k = [] then none else some (String.mk k)

/-- Model of `buildCalendarUri` (calendar-fetch-service.ts lines 99-104). -/
def buildCalendarUri (authorId calendarId : String) : String :=
  "pubky://" ++ authorId ++ "/pub/pubky.app/calendar/" ++ calendarId

/-! ## Inline URI-to-path conversions of the calendar service
(calendar-service.ts) -/

/-- Worker for the JavaScript `s.split(sep)` with a non-empty string
separator `s0 :: srest`: non-overlapping occurrences are found left to
right.  `skip` counts separator characters still to be consumed after a
match of the separator head (a match guarantees the tail fits, so a
positive `skip` never meets the empty list). -/
def jsSplitStrGo (s0 : Char) (srest : List Char) :
    Nat → List Char → List (List Char)
  | _, [] => [[]]
  | skip + 1, _ :: rest => jsSplitStrGo s0 srest skip rest
  | 0, c :: rest =>
    if (s0 :: srest).isPrefixOf (c :: rest) then
      [] :: jsSplitStrGo s0 srest srest.length rest
    else
      match jsSplitStrGo s0 srest 0 rest with
      | [] => [[c]]
      | p :: ps => (c :: p) :: ps

/-- Exact model of the JavaScript `s.split(sep)` for a non-empty string
separator `s0 :: srest`. -/
def jsSplitStr (s0 : Char) (srest : List Char) (l : List Char) :
    List (List Char) :=
  jsSplitStrGo s0 srest 0 l

/-- Model of the path derivation in `updateCalendar` (calendar-service.ts
line 142): `calendarUri.split(publicKey)[1]`, where `none` stands for the
JavaScript `undefined` produced when the index is out of bounds.  An empty
`publicKey` makes the JavaScript split decompose the string into single
characters. -/
def updateCalendarPath (calendarUri publicKey : String) : Option String :=
  match publicKey.data with
  | [] => (calendarUri.data.map (fun c => String.mk [c]))[1]?
  | s0 :: srest => ((jsSplitStr s0 srest calendarUri.data)[1]?).map String.mk

/-- The four characters the JavaScript regex `.` does not match when the
`s` flag is absent: line feed, carriage return, line separator, and
paragraph separator. -/
def isLineTerminator (c : Char) : Bool :=
  c == '\n' || c == '\r' || c == '\u2028' || c == '\u2029'

/-- Backtracking of `[^/]+(.+)` after the greedy `[^/]+` proposed to take
`k` characters of `l`: candidate lengths `k, k-1, ..., 1` for `[^/]+` are
tried in order; at a candidate length the `(.+)` succeeds exactly when a
character follows and is not a line terminator, capturing the maximal
terminator-free run from there (the regex ends with the group, so nothing
after the run needs to match). -/
def matchTailFrom (l : List Char) : Nat → Option (List Char)
  | 0 => none
  | k + 1 =>
    match l.drop (k + 1) with
    | [] => matchTailFrom l k
    | c :: rest =>
      if isLineTerminator c then matchTailFrom l k
      else some ((c :: rest).takeWhile (fun x => !isLineTerminator x))

/-- Matching of the regex `pubky:\/\/[^/]+(.+)` at a fixed start position:
`l` is the text after the literal `pubky://`; the result is capture
group 1.  The greedy `[^/]+` starts from the longest slash-free prefix
(which may contain line terminators — `[^/]` is a negated class) and
backtracks while `(.+)` cannot start, i.e. while the string is exhausted
or the next character is a line terminator. -/
def matchTailAt (l : List Char) : Option (List Char) :=
  matchTailFrom l (l.takeWhile (fun c => c ≠ '/')).length

/-- Unanchored leftmost matching of `pubky:\/\/[^/]+(.+)`: start positions
are tried left to right, as a regex engine does. -/
def findPubkyTail : List Char → Option (List Char)
  | [] => none
  | c :: rest =>
    if pubkyPrefix.isPrefixOf (c :: rest) then
      match matchTailAt ((c :: rest).drop 8) with
      | some g => some g
      | none => findPubkyTail rest
    else findPubkyTail rest

/-- Model of the path derivation in `deleteCalendar` (calendar-service.ts
lines 476-481) and `deleteEvent` (lines 511-516):
`uri.match(/pubky:\/\/[^/]+(.+)/)`, taking capture group 1 on success and
falling back to the whole input when the regex does not match. -/
def deleteResourcePath (uri : String) : String :=
  match findPubkyTail uri.data with
  | some g => String.mk g
  | none => uri

/-! ## Domain read services -/

/-- Outcome of a domain service call: a returned value (possibly null) or
a raised exception. -/
inductive FetchOutcome (α : Type) where
  | result (r : Option α)
  | raised
deriving DecidableEq

/-- Model of `fetchCalendar` (calendar-service.ts lines 390-426).  The
address conversion replaces the first `pubky://` with `pubky`; the read
and the JSON decode + schema hydration (`JSON.parse` plus the WASM
`PubkyAppCalendar.fromJson`, collapsed into the oracle `parse`, with
`none` for a throw) sit inside a try/catch that logs and returns null. -/
def fetchCalendar {α : Type} (rt : String → GetResult)
    (parse : List Nat → Option α) (calendarUri : String) : FetchOutcome α :=
  let address := String.mk (jsReplaceFirst pubkyPrefix "pubky".data calendarUri.data)
  match PubkyClient.get rt address with
  | GetOutcome.raised => FetchOutcome.raised
  | GetOutcome.result none => FetchOutcome.result none
  | GetOutcome.result (some bytes) =>
    match parse bytes with
    | some v => FetchOutcome.result (some v)
    | none => FetchOutcome.result none

/-- Model of `fetchEvent` (calendar-service.ts lines 431-467), identical
in shape to `fetchCalendar` with the event hydration oracle. -/
def fetchEvent {α : Type} (rt : String → GetResult)
    (parse : List Nat → Option α) (eventUri : String) : FetchOutcome α :=
  let address := String.mk (jsReplaceFirst pubkyPrefix "pubky".data eventUri.data)
  match PubkyClient.get rt address with
  | GetOutcome.raised => FetchOutcome.raised
  | GetOutcome.result none => FetchOutcome.result none
  | GetOutcome.result (some bytes) =>
    match parse bytes with
    | some v => FetchOutcome.result (some v)
    | none => FetchOutcome.result none

/-- Model of `fetchCalendarMetadata` (calendar-fetch-service.ts lines
23-62).  A null read still returns null, but a decode/hydration failure is
caught, wrapped into an `AppError`, logged — and re-thrown. -/
def fetchCalendarMetadata {α : Type} (rt : String → GetResult)
    (parse : List Nat → Option α) (authorId calendarId : String) :
    FetchOutcome α :=
  let calendarUri :=
    "pubky://" ++ authorId ++ "/pub/pubky.app/calendar/" ++ calendarId
  match PubkyClient.get rt calendarUri with
  | GetOutcome.raised => FetchOutcome.raised
  | GetOutcome.result none => FetchOutcome.result none
  | GetOutcome.result (some bytes) =>
    match parse bytes with
    | some v => FetchOutcome.result (some v)
    | none => FetchOutcome.raised

/-- One entry of the list returned by `fetchUserCalendars`
(calendar-list-service.ts). -/
structure CalendarListItem (α : Type) where
  uri : String
  authorId : String
  calendarId : String
  calendar : α
deriving DecidableEq

/-- One iteration of the per-URI loop of `fetchUserCalendars`
(calendar-list-service.ts lines 69-104): convert the URI to the public
address, read, and on a non-null response decode and hydrate; a decode
failure is caught, logged and skipped (`none`), as is a null response. -/
def hydrateCalendar {α : Type} (rt : String → GetResult)
    (parse : List Nat → Option α) (userId uri : String) :
    Option (CalendarListItem α) :=
  let address := String.mk (jsReplaceFirst pubkyPrefix "pubky".data uri.data)
  match PubkyClient.get rt address with
  | GetOutcome.result (some bytes) =>
    match parse bytes with
    | some cal =>
      let calendarId :=
        match (jsSplitChar '/' uri.data).getLast? with
        | some l => String.mk l
        | none => ""
      some (CalendarListItem.mk uri userId calendarId cal)
    | none => none
  | _ => none

/-- Model of `fetchUserCalendars` (calendar-list-service.ts lines 41-121)
from the point where the collection listing `calendarUrls` has been
obtained: an empty listing short-circuits to `[]`, and otherwise each URI
is hydrated with per-item failure isolation, preserving order. -/
def fetchUserCalendars {α : Type} (rt : String → GetResult)
    (parse : List Nat → Option α) (userId : String)
    (calendarUrls : List String) : List (CalendarListItem α) :=
  if calendarUrls.length = 0 then []
  else calendarUrls.filterMap (hydrateCalendar rt parse userId)

/-! ## Timestamp identifiers (calendar-service.ts lines 34-39) -/

/-- Digit characters of the JavaScript `Number.toString(32)` after
`toUpperCase`: 0-9 then A-V. -/
def base32DigitChar (d : Nat) : Char :=
  if d < 10 then Char.ofNat (48 + d) else Char.ofNat (55 + d)

/-- Base-32 digits of `n`, least significant first, with explicit fuel
(`n` itself is always enough). -/
def toBase32Aux : Nat → Nat → List Nat
  | 0, _ => []
  | _ + 1, 0 => []
  | fuel + 1, n + 1 => ((n + 1) % 32) :: toBase32Aux fuel ((n + 1) / 32)

/-- Model of the JavaScript `n.toString(32).toUpperCase()` for a natural
number `n` (exact for integers below 2^53, where the IEEE double holds
`n` exactly): most-significant-first base-32 digits, `"0"` for zero. -/
def jsToString32 (n : Nat) : List Char :=
  if n = 0 then ['0']
  else ((toBase32Aux n n).map base32DigitChar).reverse

/-- Model of `.padStart(13, "0")`. -/
def padStart13 (l : List Char) : List Char :=
  List.replicate (13 - l.length) '0' ++ l

/-- Model of `generateTimestampId` (calendar-service.ts lines 34-39) as a
function of the wall-clock `Date.now()` value in milliseconds: multiply
into microseconds, render in base 32 upper-cased, left-pad with zeros to
13 characters. -/
def generateTimestampId (nowMs : Nat) : String :=
  String.mk (padStart13 (jsToString32 (nowMs * 1000)))

/-- The 32-character alphabet the generated ids draw from. -/
def base32Alphabet : String := "0123456789ABCDEFGHIJKLMNOPQRSTUV"

/-- Numeric value of a most-significant-first base-32 digit list (proof
infrastructure for the id ordering argument). -/
def base32Val (l : List Nat) : Nat := l.foldl (fun a d => a * 32 + d) 0

/-- Most-significant-first digit-value list underlying `jsToString32`
(proof infrastructure). -/
def digitList (n : Nat) : List Nat :=
  if n = 0 then [0] else (toBase32Aux n n).reverse

/-- The digit-value list padded to width 13 (proof infrastructure). -/
def digits13 (n : Nat) : List Nat :=
  List.replicate (13 - (digitList n).length) 0 ++ digitList n

/-! ## Image upload (calendar-service.ts lines 284-385) -/

/-- One storage write or delete performed by the upload sequence; the
trace of these steps is the observable behaviour `uploadImage` is
specified by. -/
inductive UploadStep where
  | putBlob (path : String) (content : List Nat)
  | putMeta (path : String) (content : List Nat)
  | deleteBlob (path : String)
deriving DecidableEq

/-- Model of `createBlobId` (calendar-service.ts lines 284-295): the
Blake3 digest (external library, oracle `hash`) of the bytes, first half,
Crockford base-32 encoded (external library, oracle `encode`). -/
def createBlobId (hash : List Nat → List Nat) (encode : List Nat → String)
    (data : List Nat) : String :=
  let h := hash data
  encode (h.take (h.length / 2))

/-- Model of `uploadImage` (calendar-service.ts lines 307-385).  The blob
is written first at `/pub/pubky.app/blobs/<blobId>`; a `false` from `put`
raises (wrapped as an `AppError`) before any metadata write.  Only after
the blob write resolves successfully is the timestamp file id generated
and the metadata record written at `/pub/pubky.app/files/<fileId>`; a
failure there raises too, and nothing — in particular not the
already-written blob — is deleted.  `metaBytes` stands for the serialized
`PubkyAppFile` JSON. -/
def uploadImage (putR : String → List Nat → Bool)
    (hash : List Nat → List Nat) (encode : List Nat → String)
    (nowMs : Nat) (fileBytes metaBytes : List Nat) (publicKey : String) :
    Except Unit String × List UploadStep :=
  let blobId := createBlobId hash encode fileBytes
  let blobPath := "/pub/pubky.app/blobs/" ++ blobId
  if putR blobPath fileBytes then
    let fileId := generateTimestampId nowMs
    let filePath := "/pub/pubky.app/files/" ++ fileId
    let tr := [UploadStep.putBlob blobPath fileBytes,
               UploadStep.putMeta filePath metaBytes]
    if putR filePath metaBytes then
      (Except.ok ("pubky://" ++ publicKey ++ filePath), tr)
    else (Except.error (), tr)
  else (Except.error (), [UploadStep.putBlob blobPath fileBytes])

/-! ## Theorems -/

/-- C1: for every path and byte content, when the facade holds no live
session, `PubkyClient.put` returns false and `PubkyClient.delete` returns
false, and both leave the state — in particular its runtime-call trace —
entirely untouched, whatever the runtime oracles would have answered. -/
theorem write_without_session_rejected_locally
    (rtPut : String → List Nat → Bool) (rtDel : String → Bool)
    (s : ClientState) (path : String) (content : List Nat)
    (h : s.currentSession = none) :
    PubkyClient.put rtPut s path content = (false, s) ∧
      PubkyClient.delete rtDel s path = (false, s) := by
  unfold PubkyClient.put PubkyClient.delete
  rw [h]
  exact ⟨rfl, rfl⟩

/-- Witness for C1 at a concrete sessionless state. -/
theorem write_without_session_rejected_locally_witness :
    (ClientState.mk none []).currentSession = none ∧
      (PubkyClient.put (fun _ _ => true) (ClientState.mk none [])
          "/pub/pubky.app/calendar/X" [1, 2] = (false, ClientState.mk none []) ∧
        PubkyClient.delete (fun _ => true) (ClientState.mk none [])
          "/pub/pubky.app/calendar/X" = (false, ClientState.mk none [])) :=
  ⟨rfl,
    write_without_session_rejected_locally (fun _ _ => true) (fun _ => true)
      (ClientState.mk none []) "/pub/pubky.app/calendar/X" [1, 2] rfl⟩

/-- C2 counterexample: the claim states that `get` throws a NetworkError
exactly when the runtime reports a transport-level failure.  It does not:
the whole body of `get` sits inside a try/catch whose catch branch logs
and returns null, so at an address where the runtime raises a transport
error the call returns null instead of raising. -/
theorem get_transport_failure_not_raised :
    PubkyClient.get (fun _ => GetResult.transportError)
        "pubkyabc/pub/pubky.app/calendar/X" = GetOutcome.result none ∧
      PubkyClient.get (fun _ => GetResult.transportError)
        "pubkyabc/pub/pubky.app/calendar/X" ≠ GetOutcome.raised :=
  ⟨rfl, by decide⟩

/-- C2 amended: `get` returns null when the resource is absent, returns the
bytes when they are found, and also returns null — rather than throwing —
when the runtime reports a transport-level failure; it never raises. -/
theorem get_null_on_absent_and_transport_failure
    (rt : String → GetResult) (url : String) :
    (rt url = GetResult.absent → PubkyClient.get rt url = GetOutcome.result none) ∧
      (rt url = GetResult.transportError →
        PubkyClient.get rt url = GetOutcome.result none) ∧
      (∀ b, rt url = GetResult.found b →
        PubkyClient.get rt url = GetOutcome.result (some b)) ∧
      PubkyClient.get rt url ≠ GetOutcome.raised := by
  refine ⟨fun h => ?_, fun h => ?_, fun b h => ?_, ?_⟩ <;>
    first
    | (unfold PubkyClient.get; rw [h])
    | (unfold PubkyClient.get; cases rt url <;> simp)

/-- Witness for C2 (amended) at a concrete oracle reporting absence. -/
theorem get_null_on_absent_and_transport_failure_witness :
    (fun (_ : String) => GetResult.absent) "pubkyabc/pub/x" = GetResult.absent ∧
      PubkyClient.get (fun _ => GetResult.absent) "pubkyabc/pub/x" =
        GetOutcome.result none :=
  ⟨rfl,
    (get_null_on_absent_and_transport_failure (fun _ => GetResult.absent)
        "pubkyabc/pub/x").1 rfl⟩

/-- C10: `signout` never propagates an error — whatever the remote call
does, it completes — and when a session is held it unconditionally clears
it, so the resulting state answers `none` for the session and every
subsequent `put`/`delete` on that state fails soft with `false` and no
further runtime call. -/
theorem signout_clears_session_and_never_raises (remoteOk : Bool)
    (s : ClientState) (h : s.currentSession.isSome = true) :
    (∀ (ok : Bool) (s0 : ClientState), ∃ s1,
        PubkyClient.signout ok s0 = PubkyClient.SignoutOutcome.completed s1) ∧
      ∃ s2, PubkyClient.signout remoteOk s = PubkyClient.SignoutOutcome.completed s2 ∧
        s2.currentSession = none ∧
        ∀ (rtPut : String → List Nat → Bool) (rtDel : String → Bool)
          (path : String) (content : List Nat),
          PubkyClient.put rtPut s2 path content = (false, s2) ∧
            PubkyClient.delete rtDel s2 path = (false, s2) := by
  constructor
  · intro ok s0
    unfold PubkyClient.signout
    cases s0.currentSession <;> exact ⟨_, rfl⟩
  · obtain ⟨sess, hs⟩ := Option.isSome_iff_exists.mp h
    refine ⟨ClientState.mk none (s.trace ++ [RuntimeCall.signoutRemote]),
      ?_, rfl, ?_⟩
    · unfold PubkyClient.signout
      rw [hs]
    · intro rtPut rtDel path content
      unfold PubkyClient.put PubkyClient.delete
      exact ⟨rfl, rfl⟩

/-- Witness for C10 at a concrete state holding a session. -/
theorem signout_clears_session_and_never_raises_witness :
    (ClientState.mk (some (Session.mk 7)) []).currentSession.isSome = true ∧
      ∃ s2, PubkyClient.signout false (ClientState.mk (some (Session.mk 7)) []) =
          PubkyClient.SignoutOutcome.completed s2 ∧
        s2.currentSession = none ∧
        ∀ (rtPut : String → List Nat → Bool) (rtDel : String → Bool)
          (path : String) (content : List Nat),
          PubkyClient.put rtPut s2 path content = (false, s2) ∧
            PubkyClient.delete rtDel s2 path = (false, s2) :=
  ⟨rfl,
    (signout_clears_session_and_never_raises false
        (ClientState.mk (some (Session.mk 7)) []) rfl).2⟩

/-! ### Lemmas about the JavaScript string primitives -/

theorem jsSplitChar_ne_nil (sep : Char) (l : List Char) :
    jsSplitChar sep l ≠ [] := by
  cases l with
  | nil => simp [jsSplitChar]
  | cons c rest =>
    unfold jsSplitChar
    split
    · simp
    · cases h : jsSplitChar sep rest <;> simp

theorem jsSplitChar_head (sep : Char) (o rest : List Char)
    (h : ∀ c ∈ o, c ≠ sep) :
    (jsSplitChar sep (o ++ sep :: rest)).head? = some o := by
  induction o with
  | nil => simp [jsSplitChar]
  | cons c o ih =>
    have hc : c ≠ sep := h c (by simp)
    have ih2 := ih (fun x hx => h x (by simp [hx]))
    show (jsSplitChar sep (c :: (o ++ sep :: rest))).head? = some (c :: o)
    unfold jsSplitChar
    rw [if_neg hc]
    cases hsp : jsSplitChar sep (o ++ sep :: rest) with
    | nil => exact absurd hsp (jsSplitChar_ne_nil sep _)
    | cons p ps =>
      rw [hsp] at ih2
      simp only [List.head?_cons, Option.some.injEq] at ih2
      simp [ih2]

theorem jsSplitChar_no_sep (sep : Char) (l : List Char)
    (h : ∀ c ∈ l, c ≠ sep) : jsSplitChar sep l = [l] := by
  induction l with
  | nil => simp [jsSplitChar]
  | cons c rest ih =>
    have hc : c ≠ sep := h c (by simp)
    have ih2 := ih (fun x hx => h x (by simp [hx]))
    unfold jsSplitChar
    rw [if_neg hc, ih2]

theorem jsSplitChar_length_two (sep : Char) (l : List Char) (h : sep ∈ l) :
    2 ≤ (jsSplitChar sep l).length := by
  induction l with
  | nil => cases h
  | cons c rest ih =>
    unfold jsSplitChar
    by_cases hc : c = sep
    · rw [if_pos hc]
      have h1 := jsSplitChar_ne_nil sep rest
      cases hr : jsSplitChar sep rest with
      | nil => exact absurd hr h1
      | cons p ps => simp
    · rw [if_neg hc]
      have hmem : sep ∈ rest := by
        cases h with
        | head => exact absurd rfl hc
        | tail _ h2 => exact h2
      have := ih hmem
      cases hr : jsSplitChar sep rest with
      | nil => exact absurd hr (jsSplitChar_ne_nil sep rest)
      | cons p ps =>
        rw [hr] at this
        simpa using this

theorem jsSplitChar_getLast (sep : Char) (xs r : List Char)
    (h : ∀ c ∈ r, c ≠ sep) :
    (jsSplitChar sep (xs ++ sep :: r)).getLast? = some r := by
  induction xs with
  | nil =>
    show (jsSplitChar sep (sep :: r)).getLast? = some r
    unfold jsSplitChar
    rw [if_pos rfl, jsSplitChar_no_sep sep r h]
    rfl
  | cons c xs ih =>
    have hmem : sep ∈ xs ++ sep :: r := by simp
    have hlen := jsSplitChar_length_two sep (xs ++ sep :: r) hmem
    show (jsSplitChar sep (c :: (xs ++ sep :: r))).getLast? = some r
    unfold jsSplitChar
    by_cases hc : c = sep
    · rw [if_pos hc]
      cases hsp : jsSplitChar sep (xs ++ sep :: r) with
      | nil => exact absurd hsp (jsSplitChar_ne_nil sep _)
      | cons p ps =>
        rw [hsp] at ih
        rw [List.getLast?_cons_cons]
        exact ih
    · rw [if_neg hc]
      cases hsp : jsSplitChar sep (xs ++ sep :: r) with
      | nil => exact absurd hsp (jsSplitChar_ne_nil sep _)
      | cons p ps =>
        rw [hsp] at ih hlen
        cases ps with
        | nil => simp at hlen
        | cons q qs =>
          rw [List.getLast?_cons_cons]
          rw [List.getLast?_cons_cons] at ih
          exact ih

theorem isPrefixOf_append_self (l t : List Char) :
    l.isPrefixOf (l ++ t) = true := by
  rw [ List.isPrefixOf_iff_prefix]
  exact List.prefix_append l t

theorem jsReplaceFirst_strip (pat rep l : List Char)
    (h : pat.isPrefixOf l = true) :
    jsReplaceFirst pat rep l = rep ++ l.drop pat.length := by
  cases l with
  | nil =>
    cases pat with
    | nil => simp [jsReplaceFirst]
    | cons p ps => simp [List.isPrefixOf] at h
  | cons c rest =>
    unfold jsReplaceFirst
    rw [if_pos h]

theorem string_mk_data (s : String) : String.mk s.data = s := rfl

theorem string_data_injective (s t : String) (h : s.data = t.data) : s = t :=
  congrArg String.mk h

/-- C6 counterexample: the claim quantifies over every pair whose owner id
is non-empty and slash-free, with no condition on the resource id; for the
resource id `x/y` the composed URI does not round-trip — `extractFileId`
returns only the final segment `y`. -/
theorem buildCalendarUri_roundtrip_cex :
    extractFileId (some (buildCalendarUri "a" "x/y")) = some "y" ∧
      extractFileId (some (buildCalendarUri "a" "x/y")) ≠ some "x/y" ∧
      ("a" : String) ≠ "" ∧ (∀ c ∈ ("a" : String).data, c ≠ '/') := by
  refine ⟨by decide, by decide, by decide, by decide⟩

/-- C6 amended: when both components are non-empty and slash-free, the
composed calendar URI round-trips: `extractPublicKey` recovers the owner id
and `extractFileId` recovers the resource id. -/
theorem buildCalendarUri_roundtrip (ownerId resourceId : String)
    (ho1 : ownerId ≠ "") (ho2 : ∀ c ∈ ownerId.data, c ≠ '/')
    (hr1 : resourceId ≠ "") (hr2 : ∀ c ∈ resourceId.data, c ≠ '/') :
    extractPublicKey (some (buildCalendarUri ownerId resourceId)) =
        some ownerId ∧
      extractFileId (some (buildCalendarUri ownerId resourceId)) =
        some resourceId := by
  have hod : ownerId.data ≠ [] := fun hod =>
    ho1 (string_data_injective ownerId "" hod)
  have hrd : resourceId.data ≠ [] := fun hrd =>
    hr1 (string_data_injective resourceId "" hrd)
  have hdata : (buildCalendarUri ownerId resourceId).data =
      pubkyPrefix ++ (ownerId.data ++
        ('/' :: ("pub/pubky.app/calendar/".data ++ resourceId.data))) := by
    show ("pubky://" ++ ownerId ++ "/pub/pubky.app/calendar/" ++
        resourceId).data = _
    rw [String.data_append, String.data_append, String.data_append]
    have h1 : "/pub/pubky.app/calendar/".data =
        '/' :: "pub/pubky.app/calendar/".data := by decide
    rw [h1]
    simp [pubkyPrefix]
  have evalPK : ∀ u : String, extractPublicKey (some u) =
      (if u.data = [] then none
       else if pubkyPrefix.isPrefixOf u.data = false then none
       else
         match (jsSplitChar '/' (jsReplaceFirst pubkyPrefix [] u.data)).head? with
         | none => none
         | some k => if k = [] then none else some (String.mk k)) :=
    fun _ => rfl
  have evalFI : ∀ u : String, extractFileId (some u) =
      (if u.data = [] then none
       else
         match (jsSplitChar '/' u.data).getLast? with
         | none => none
         | some last => if last = [] then none else some (String.mk last)) :=
    fun _ => rfl
  constructor
  · rw [evalPK]
    rw [hdata]
    have hne : pubkyPrefix ++ (ownerId.data ++
        ('/' :: ("pub/pubky.app/calendar/".data ++ resourceId.data))) ≠ [] := by
      simp [pubkyPrefix]
    rw [if_neg hne]
    have hpre := isPrefixOf_append_self pubkyPrefix (ownerId.data ++
      ('/' :: ("pub/pubky.app/calendar/".data ++ resourceId.data)))
    rw [hpre]
    simp only [Bool.true_eq_false, if_false]
    rw [jsReplaceFirst_strip _ _ _ hpre, List.nil_append,
      List.drop_left]
    rw [jsSplitChar_head '/' ownerId.data _ ho2]
    simp [hod]
  · rw [evalFI]
    have hdata2 : (buildCalendarUri ownerId resourceId).data =
        (pubkyPrefix ++ ownerId.data ++ "/pub/pubky.app/calendar".data) ++
          ('/' :: resourceId.data) := by
      rw [hdata]
      have h2 : ("pub/pubky.app/calendar/".data : List Char) ++
          resourceId.data = "pub/pubky.app/calendar".data ++
            ('/' :: resourceId.data) := by
        have : "pub/pubky.app/calendar/".data =
            "pub/pubky.app/calendar".data ++ ['/'] := by decide
        rw [this, List.append_assoc]
        rfl
      rw [h2]
      simp
    rw [hdata2]
    have hne2 : (pubkyPrefix ++ ownerId.data ++
        "/pub/pubky.app/calendar".data) ++ ('/' :: resourceId.data) ≠ [] := by
      simp
    rw [if_neg hne2]
    rw [jsSplitChar_getLast '/' _ resourceId.data hr2]
    simp [hrd]

/-- Witness for C6 (amended) at the concrete pair (a, b). -/
theorem buildCalendarUri_roundtrip_witness :
    (("a" : String) ≠ "" ∧ (∀ c ∈ ("a" : String).data, c ≠ '/') ∧
        ("b" : String) ≠ "" ∧ (∀ c ∈ ("b" : String).data, c ≠ '/')) ∧
      extractPublicKey (some (buildCalendarUri "a" "b")) = some "a" ∧
        extractFileId (some (buildCalendarUri "a" "b")) = some "b" :=
  ⟨⟨by decide, by decide, by decide, by decide⟩,
    buildCalendarUri_roundtrip "a" "b" (by decide) (by decide) (by decide)
      (by decide)⟩

/-- C7 counterexample: the claim says both extractors return null for any
string not starting with the scheme prefix; `extractFileId` does not check
the prefix at all and returns the whole of `hello` (its only slash-free
segment) instead of null. -/
theorem extractFileId_non_prefix_cex :
    extractFileId (some "hello") = some "hello" ∧
      extractFileId (some "hello") ≠ none ∧
      pubkyPrefix.isPrefixOf ("hello" : String).data = false :=
  ⟨by decide, by decide, by decide⟩

/-- C7 amended: both extractors are total (never throw).  `extractPublicKey`
returns null for null, undefined, the empty string and every string not
starting with the scheme prefix; `extractFileId` returns null for null,
undefined and the empty string (but not, in general, for other strings
without the scheme prefix). -/
theorem extract_malformed_input_null (u : String)
    (h : pubkyPrefix.isPrefixOf u.data = false) :
    extractPublicKey none = none ∧ extractPublicKey (some "") = none ∧
      extractPublicKey (some u) = none ∧
      extractFileId none = none ∧ extractFileId (some "") = none := by
  refine ⟨rfl, by decide, ?_, rfl, by decide⟩
  have evalPK : extractPublicKey (some u) =
      (if u.data = [] then none
       else if pubkyPrefix.isPrefixOf u.data = false then none
       else
         match (jsSplitChar '/' (jsReplaceFirst pubkyPrefix [] u.data)).head? with
         | none => none
         | some k => if k = [] then none else some (String.mk k)) := rfl
  rw [evalPK]
  by_cases hd : u.data = []
  · rw [if_pos hd]
  · rw [if_neg hd, if_pos h]

/-- Witness for C7 (amended) at the concrete non-prefixed string hello. -/
theorem extract_malformed_input_null_witness :
    pubkyPrefix.isPrefixOf ("hello" : String).data = false ∧
      (extractPublicKey none = none ∧ extractPublicKey (some "") = none ∧
        extractPublicKey (some "hello") = none ∧
        extractFileId none = none ∧ extractFileId (some "") = none) :=
  ⟨by decide, extract_malformed_input_null "hello" (by decide)⟩

theorem takeWhile_stop_slash (o rest : List Char) (h : ∀ c ∈ o, c ≠ '/') :
    List.takeWhile (fun c => decide (c ≠ '/')) (o ++ '/' :: rest) = o := by
  induction o with
  | nil =>
    show List.takeWhile (fun c => decide (c ≠ '/')) ('/' :: rest) = []
    exact List.takeWhile_cons_of_neg (by simp)
  | cons c o ih =>
    have hc : c ≠ '/' := h c (by simp)
    have ih2 := ih (fun x hx => h x (by simp [hx]))
    show List.takeWhile (fun c => decide (c ≠ '/'))
      (c :: (o ++ '/' :: rest)) = c :: o
    rw [List.takeWhile_cons_of_pos (by simpa using hc), ih2]

theorem takeWhile_nonTerm_eq_self (r : List Char)
    (h : ∀ c ∈ r, isLineTerminator c = false) :
    r.takeWhile (fun x => !isLineTerminator x) = r := by
  induction r with
  | nil => rfl
  | cons c r ih =>
    rw [List.takeWhile_cons_of_pos (by simp [h c (by simp)]),
      ih (fun x hx => h x (by simp [hx]))]

theorem matchTailAt_strip (o rest : List Char) (ho : o ≠ [])
    (h : ∀ c ∈ o, c ≠ '/')
    (hr : ∀ c ∈ rest, isLineTerminator c = false) :
    matchTailAt (o ++ '/' :: rest) = some ('/' :: rest) := by
  unfold matchTailAt
  rw [takeWhile_stop_slash o rest h]
  cases o with
  | nil => exact absurd rfl ho
  | cons c0 o2 =>
    show matchTailFrom ((c0 :: o2) ++ '/' :: rest) (o2.length + 1) = _
    rw [matchTailFrom]
    have hdrop : ((c0 :: o2) ++ '/' :: rest).drop (o2.length + 1) =
        '/' :: rest := by
      have hl : o2.length + 1 = (c0 :: o2).length := rfl
      rw [hl, List.drop_left]
    rw [hdrop]
    show (if isLineTerminator '/' = true then
        matchTailFrom ((c0 :: o2) ++ '/' :: rest) o2.length
      else some (List.takeWhile (fun x => !isLineTerminator x)
        ('/' :: rest))) = some ('/' :: rest)
    rw [if_neg (by decide)]
    rw [List.takeWhile_cons_of_pos (by decide),
      takeWhile_nonTerm_eq_self rest hr]

theorem findPubkyTail_at_start (X g : List Char)
    (hm : matchTailAt X = some g) :
    findPubkyTail (pubkyPrefix ++ X) = some g := by
  have hshape : pubkyPrefix ++ X = 'p' :: ("ubky://".data ++ X) := by
    have hp : pubkyPrefix = 'p' :: "ubky://".data := by decide
    rw [hp]
    rfl
  rw [hshape]
  unfold findPubkyTail
  rw [← hshape, isPrefixOf_append_self]
  have hdrop : (pubkyPrefix ++ X).drop 8 = X := by
    have h8 : (8 : Nat) = pubkyPrefix.length := by decide
    rw [h8, List.drop_left]
  simp only [if_true]
  rw [hdrop, hm]

theorem isPrefixOf_cons_nil (c : Char) (l : List Char) :
    (c :: l).isPrefixOf ([] : List Char) = false := rfl

theorem jsSplitStrGo_no_occurrence (s0 : Char) (srest l : List Char)
    (h : ∀ i, (s0 :: srest).isPrefixOf (l.drop i) = false) :
    jsSplitStrGo s0 srest 0 l = [l] := by
  induction l with
  | nil => rfl
  | cons c rest ih =>
    have h0 : ¬ ((s0 :: srest).isPrefixOf (c :: rest) = true) := by
      have := h 0
      simp only [List.drop_zero] at this
      simp [this]
    have ih2 := ih (fun i => by
      have := h (i + 1)
      simpa [List.drop_succ_cons] using this)
    simp only [jsSplitStrGo]
    rw [if_neg h0, ih2]

theorem jsSplitStrGo_skip (s0 : Char) (srest t B : List Char) :
    jsSplitStrGo s0 srest t.length (t ++ B) = jsSplitStrGo s0 srest 0 B := by
  induction t with
  | nil => rfl
  | cons x t ih =>
    show jsSplitStrGo s0 srest (t.length + 1) (x :: (t ++ B)) =
      jsSplitStrGo s0 srest 0 B
    rw [jsSplitStrGo]
    exact ih

theorem jsSplitStrGo_single_occurrence (s0 : Char) (srest A B : List Char)
    (hA : ∀ i < A.length,
      (s0 :: srest).isPrefixOf ((A ++ (s0 :: srest) ++ B).drop i) = false)
    (hB : ∀ j, (s0 :: srest).isPrefixOf (B.drop j) = false) :
    jsSplitStrGo s0 srest 0 (A ++ (s0 :: srest) ++ B) = [A, B] := by
  induction A with
  | nil =>
    show jsSplitStrGo s0 srest 0 (s0 :: (srest ++ B)) = [[], B]
    simp only [jsSplitStrGo]
    have hpre : (s0 :: srest).isPrefixOf (s0 :: (srest ++ B)) = true := by
      have := isPrefixOf_append_self (s0 :: srest) B
      simpa using this
    rw [if_pos hpre, jsSplitStrGo_skip,
      jsSplitStrGo_no_occurrence s0 srest B hB]
  | cons c A2 ih =>
    have h00 := hA 0 (by simp)
    simp only [List.drop_zero, List.cons_append] at h00
    have ih2 := ih (fun i hi => by
      have := hA (i + 1) (by simpa using Nat.succ_lt_succ hi)
      simpa [List.cons_append, List.drop_succ_cons] using this)
    show jsSplitStrGo s0 srest 0 (c :: (A2 ++ (s0 :: srest) ++ B)) =
      [c :: A2, B]
    simp only [jsSplitStrGo]
    rw [h00]
    simp only [Bool.false_eq_true, if_false]
    rw [ih2]

theorem updateCalendarPath_no_occurrence (uri pk : String)
    (hpk : pk.data ≠ [])
    (h : ∀ i < uri.data.length,
      pk.data.isPrefixOf (uri.data.drop i) = false) :
    updateCalendarPath uri pk = none := by
  obtain ⟨s0, srest, hpd⟩ : ∃ s0 srest, pk.data = s0 :: srest := by
    cases hpd2 : pk.data with
    | nil => exact absurd hpd2 hpk
    | cons a b => exact ⟨a, b, rfl⟩
  have hfull : ∀ i, (s0 :: srest).isPrefixOf (uri.data.drop i) = false := by
    intro i
    by_cases hi : i < uri.data.length
    · have := h i hi
      rwa [hpd] at this
    · rw [List.drop_eq_nil_of_le (by omega)]
      exact isPrefixOf_cons_nil s0 srest
  simp only [updateCalendarPath, hpd]
  unfold jsSplitStr
  rw [jsSplitStrGo_no_occurrence s0 srest uri.data hfull]
  rfl

theorem updateCalendarPath_single_occurrence (uri pk : String)
    (A B : List Char) (hpk : pk.data ≠ [])
    (huri : uri.data = A ++ pk.data ++ B)
    (hA : ∀ i < A.length, pk.data.isPrefixOf (uri.data.drop i) = false)
    (hB : ∀ j < B.length, pk.data.isPrefixOf (B.drop j) = false) :
    updateCalendarPath uri pk = some (String.mk B) := by
  obtain ⟨s0, srest, hpd⟩ : ∃ s0 srest, pk.data = s0 :: srest := by
    cases hpd2 : pk.data with
    | nil => exact absurd hpd2 hpk
    | cons a b => exact ⟨a, b, rfl⟩
  have hA2 : ∀ i < A.length,
      (s0 :: srest).isPrefixOf ((A ++ (s0 :: srest) ++ B).drop i) = false := by
    intro i hi
    have := hA i hi
    rwa [huri, hpd] at this
  have hB2 : ∀ j, (s0 :: srest).isPrefixOf (B.drop j) = false := by
    intro j
    by_cases hj : j < B.length
    · have := hB j hj
      rwa [hpd] at this
    · rw [List.drop_eq_nil_of_le (by omega)]
      exact isPrefixOf_cons_nil s0 srest
  simp only [updateCalendarPath, hpd]
  unfold jsSplitStr
  have huri2 : uri.data = A ++ (s0 :: srest) ++ B := by
    rw [huri, hpd]
  rw [huri2, jsSplitStrGo_single_occurrence s0 srest A B hA2 hB2]
  rfl

/-- C3 counterexample: the claim says the URI-to-path conversions fail with
InvalidAddress whenever the URI's owner does not match the given owner id.
They do not: taking owner id `alice` against a URI owned by `mallory`, the
delete-side conversion happily produces the path of the foreign URI, the
update-side conversion produces undefined (no path, but also no error), and
on a non-matching input the delete-side conversion passes the input through
unchanged. -/
theorem toRelativePath_owner_mismatch_cex :
    deleteResourcePath "pubky://mallory/pub/pubky.app/calendar/A" =
        "/pub/pubky.app/calendar/A" ∧
      extractPublicKey (some "pubky://mallory/pub/pubky.app/calendar/A") =
        some "mallory" ∧
      ("mallory" : String) ≠ "alice" ∧
      updateCalendarPath "pubky://mallory/pub/pubky.app/calendar/A" "alice" =
        none ∧
      deleteResourcePath "not-a-uri" = "not-a-uri" :=
  ⟨by decide, by decide, by decide, by decide, by decide⟩

/-- C3 amended: the conversions strip the `pubky://<owner>` prefix of the
URI's own owner and never fail with an InvalidAddress error, performing no
validation against the caller's owner id.  Delete side: for every URI
`pubky://<owner>/<path>` whose owner is non-empty and slash-free and whose
path is free of line terminators, the regex conversion returns `/<path>`,
whatever the caller's owner id is, and it passes the input through
unchanged when the regex does not match.  Update side: splitting the URI
on the caller's owner id yields undefined when the owner id does not occur
in the URI, and yields the path exactly when the owner id occurs once, at
its canonical position. -/
theorem toRelativePath_strips_without_validation (owner rest : String)
    (ho1 : owner.data ≠ []) (ho2 : ∀ c ∈ owner.data, c ≠ '/')
    (hrest : ∀ c ∈ rest.data, isLineTerminator c = false) :
    deleteResourcePath ("pubky://" ++ owner ++ "/" ++ rest) = "/" ++ rest ∧
      deleteResourcePath "not-a-uri" = "not-a-uri" ∧
      (∀ uri pk : String, pk.data ≠ [] →
        (∀ i < uri.data.length,
          pk.data.isPrefixOf (uri.data.drop i) = false) →
        updateCalendarPath uri pk = none) ∧
      (∀ (uri pk : String) (A B : List Char), pk.data ≠ [] →
        uri.data = A ++ pk.data ++ B →
        (∀ i < A.length, pk.data.isPrefixOf (uri.data.drop i) = false) →
        (∀ j < B.length, pk.data.isPrefixOf (B.drop j) = false) →
        updateCalendarPath uri pk = some (String.mk B)) := by
  refine ⟨?_, by decide,
    fun uri pk hpk h => updateCalendarPath_no_occurrence uri pk hpk h,
    fun uri pk A B hpk huri hA hB =>
      updateCalendarPath_single_occurrence uri pk A B hpk huri hA hB⟩
  have hdata : ("pubky://" ++ owner ++ "/" ++ rest).data =
      pubkyPrefix ++ (owner.data ++ '/' :: rest.data) := by
    rw [String.data_append, String.data_append, String.data_append]
    have h1 : ("/" : String).data = ['/'] := by decide
    rw [h1]
    simp [pubkyPrefix]
  unfold deleteResourcePath
  rw [hdata, findPubkyTail_at_start _ _
    (matchTailAt_strip owner.data rest.data ho1 ho2 hrest)]
  exact string_data_injective _ _ rfl

/-- Witness for C3 (amended) at the concrete owner bob, and with the
update-side clauses exercised at owner alice on its own canonical URI
(one occurrence) and at an owner absent from the URI. -/
theorem toRelativePath_strips_without_validation_witness :
    (("bob" : String).data ≠ [] ∧ (∀ c ∈ ("bob" : String).data, c ≠ '/') ∧
        (∀ c ∈ ("pub/x" : String).data, isLineTerminator c = false)) ∧
      deleteResourcePath ("pubky://" ++ "bob" ++ "/" ++ "pub/x") =
          "/" ++ "pub/x" ∧
        updateCalendarPath "pubky://alice/pub/x" "alice" =
          some (String.mk ("/pub/x" : String).data) ∧
        updateCalendarPath "pubky://mallory/pub/x" "alice" = none :=
  ⟨⟨by decide, by decide, by decide⟩,
    (toRelativePath_strips_without_validation "bob" "pub/x" (by decide)
        (by decide) (by decide)).1,
    (toRelativePath_strips_without_validation "bob" "pub/x" (by decide)
        (by decide) (by decide)).2.2.2 "pubky://alice/pub/x" "alice"
      "pubky://".data ("/pub/x" : String).data (by decide) (by decide)
      (by decide) (by decide),
    (toRelativePath_strips_without_validation "bob" "pub/x" (by decide)
        (by decide) (by decide)).2.2.1 "pubky://mallory/pub/x" "alice"
      (by decide) (by decide)⟩

/-- C4 counterexample: the claim says every single-resource read returns
null on a parse failure; `fetchCalendarMetadata` instead wraps the parse
failure and re-throws it. -/
theorem fetchCalendarMetadata_parse_failure_raises :
    fetchCalendarMetadata (α := Nat) (fun _ => GetResult.found [123])
        (fun _ => none) "author" "cal" = FetchOutcome.raised ∧
      fetchCalendarMetadata (α := Nat) (fun _ => GetResult.found [123])
        (fun _ => none) "author" "cal" ≠ FetchOutcome.result none :=
  ⟨rfl, by decide⟩

/-- C4 amended: on bytes that fail JSON decoding or schema hydration,
`fetchCalendar` and `fetchEvent` log and return null and never raise, while
`fetchCalendarMetadata` wraps the failure into a typed error, logs it and
re-throws. -/
theorem parse_failure_null_except_metadata {α : Type}
    (rt : String → GetResult) (parse : List Nat → Option α)
    (calendarUri eventUri authorId calendarId : String) :
    (∀ b, rt (String.mk (jsReplaceFirst pubkyPrefix "pubky".data
          calendarUri.data)) = GetResult.found b → parse b = none →
        fetchCalendar rt parse calendarUri = FetchOutcome.result none) ∧
      (∀ b, rt (String.mk (jsReplaceFirst pubkyPrefix "pubky".data
          eventUri.data)) = GetResult.found b → parse b = none →
        fetchEvent rt parse eventUri = FetchOutcome.result none) ∧
      (∀ b, rt ("pubky://" ++ authorId ++ "/pub/pubky.app/calendar/" ++
          calendarId) = GetResult.found b → parse b = none →
        fetchCalendarMetadata rt parse authorId calendarId =
          FetchOutcome.raised) ∧
      fetchCalendar rt parse calendarUri ≠ FetchOutcome.raised ∧
      fetchEvent rt parse eventUri ≠ FetchOutcome.raised := by
  refine ⟨?_, ?_, ?_, ?_, ?_⟩
  · intro b hb hp
    simp only [fetchCalendar, PubkyClient.get, hb, hp]
  · intro b hb hp
    simp only [fetchEvent, PubkyClient.get, hb, hp]
  · intro b hb hp
    simp only [fetchCalendarMetadata, PubkyClient.get, hb, hp]
  · simp only [fetchCalendar, PubkyClient.get]
    intro habs
    split at habs
    · rename_i heq
      split at heq <;> simp_all
    · simp at habs
    · split at habs <;> simp_all
  · simp only [fetchEvent, PubkyClient.get]
    intro habs
    split at habs
    · rename_i heq
      split at heq <;> simp_all
    · simp at habs
    · split at habs <;> simp_all

/-- Witness for C4 (amended) at concrete oracles whose bytes always fail
to parse. -/
theorem parse_failure_null_except_metadata_witness :
    ((fun (_ : String) => GetResult.found [7])
          (String.mk (jsReplaceFirst pubkyPrefix "pubky".data
            ("pubky://a/pub/x" : String).data)) = GetResult.found [7] ∧
        (fun (_ : List Nat) => (none : Option Nat)) [7] = none) ∧
      fetchCalendar (α := Nat) (fun _ => GetResult.found [7]) (fun _ => none)
          "pubky://a/pub/x" = FetchOutcome.result none :=
  ⟨⟨rfl, rfl⟩,
    (parse_failure_null_except_metadata (α := Nat)
        (fun _ => GetResult.found [7]) (fun _ => none)
        "pubky://a/pub/x" "pubky://a/pub/y" "a" "c").1 [7] rfl rfl⟩

theorem length_filterMap_of_isSome {β γ : Type} (f : β → Option γ)
    (l : List β) (h : ∀ u ∈ l, (f u).isSome = true) :
    (l.filterMap f).length = l.length := by
  induction l with
  | nil => rfl
  | cons x xs ih =>
    have hx := h x (by simp)
    obtain ⟨v, hv⟩ := Option.isSome_iff_exists.mp hx
    rw [List.filterMap_cons, hv]
    simp only [List.length_cons]
    rw [ih (fun u hu => h u (by simp [hu]))]

/-- C5: when the collection listing contains one URI whose bytes arrive but
fail to parse and every other URI hydrates successfully, the
per-item try/catch of `fetchUserCalendars` logs and skips exactly the bad
one: the call does not throw and returns exactly the successfully hydrated
items of the other URIs, in order — one fewer than the listing. -/
theorem fetchUserCalendars_skips_single_parse_failure {α : Type}
    (rt : String → GetResult) (parse : List Nat → Option α) (userId : String)
    (pre post : List String) (bad : String)
    (hpre : ∀ u ∈ pre, (hydrateCalendar rt parse userId u).isSome = true)
    (hpost : ∀ u ∈ post, (hydrateCalendar rt parse userId u).isSome = true)
    (hbad : ∃ b, rt (String.mk (jsReplaceFirst pubkyPrefix "pubky".data
        bad.data)) = GetResult.found b ∧ parse b = none) :
    (fetchUserCalendars rt parse userId (pre ++ bad :: post)).length =
        pre.length + post.length ∧
      fetchUserCalendars rt parse userId (pre ++ bad :: post) =
        (pre ++ post).filterMap (hydrateCalendar rt parse userId) := by
  obtain ⟨b, hb, hp⟩ := hbad
  have hbadnone : hydrateCalendar rt parse userId bad = none := by
    simp only [hydrateCalendar, PubkyClient.get, hb, hp]
  have hguard : (pre ++ bad :: post).length ≠ 0 := by simp
  have heq : fetchUserCalendars rt parse userId (pre ++ bad :: post) =
      (pre ++ post).filterMap (hydrateCalendar rt parse userId) := by
    unfold fetchUserCalendars
    rw [if_neg hguard, List.filterMap_append, List.filterMap_cons, hbadnone,
      List.filterMap_append]
  refine ⟨?_, heq⟩
  rw [heq, List.filterMap_append,
    List.length_append,
    length_filterMap_of_isSome _ pre hpre,
    length_filterMap_of_isSome _ post hpost]

/-- Witness for C5 at a three-element listing whose middle entry fails to
parse. -/
theorem fetchUserCalendars_skips_single_parse_failure_witness :
    ((∀ u ∈ ["pubky://a/pub/pubky.app/calendar/X"],
        (hydrateCalendar (α := Nat)
          (fun a => if a = "pubkya/pub/pubky.app/calendar/Y"
            then GetResult.found [0] else GetResult.found [1])
          (fun b => if b = [0] then none else some 5) "a" u).isSome = true) ∧
      (∀ u ∈ ["pubky://a/pub/pubky.app/calendar/Z"],
        (hydrateCalendar (α := Nat)
          (fun a => if a = "pubkya/pub/pubky.app/calendar/Y"
            then GetResult.found [0] else GetResult.found [1])
          (fun b => if b = [0] then none else some 5) "a" u).isSome = true) ∧
      (∃ b, (fun a => if a = "pubkya/pub/pubky.app/calendar/Y"
            then GetResult.found [0] else GetResult.found [1])
          (String.mk (jsReplaceFirst pubkyPrefix "pubky".data
            ("pubky://a/pub/pubky.app/calendar/Y" : String).data)) =
          GetResult.found b ∧
        (fun b => if b = [0] then (none : Option Nat) else some 5) b =
          none)) ∧
      (fetchUserCalendars (α := Nat)
          (fun a => if a = "pubkya/pub/pubky.app/calendar/Y"
            then GetResult.found [0] else GetResult.found [1])
          (fun b => if b = [0] then none else some 5) "a"
          (["pubky://a/pub/pubky.app/calendar/X"] ++
            "pubky://a/pub/pubky.app/calendar/Y" ::
              ["pubky://a/pub/pubky.app/calendar/Z"])).length = 1 + 1 :=
  ⟨⟨by decide, by decide, ⟨[0], by decide, by decide⟩⟩,
    (fetchUserCalendars_skips_single_parse_failure (α := Nat)
        (fun a => if a = "pubkya/pub/pubky.app/calendar/Y"
          then GetResult.found [0] else GetResult.found [1])
        (fun b => if b = [0] then none else some 5) "a"
        ["pubky://a/pub/pubky.app/calendar/X"]
        ["pubky://a/pub/pubky.app/calendar/Z"]
        "pubky://a/pub/pubky.app/calendar/Y"
        (by decide) (by decide) ⟨[0], by decide, by decide⟩).1⟩

/-- C9: the two writes of `uploadImage` are strictly ordered.  When the
blob `put` fails (returns false) the call raises the upload error with no
metadata write at all; any metadata write in the trace sits strictly after
the blob write and only happens when the blob `put` resolved successfully;
and no step of the sequence ever deletes the blob (in particular not after
a metadata-write failure). -/
theorem uploadImage_blob_then_metadata
    (putR : String → List Nat → Bool) (hash : List Nat → List Nat)
    (encode : List Nat → String) (nowMs : Nat)
    (fileBytes metaBytes : List Nat) (publicKey : String) :
    (putR ("/pub/pubky.app/blobs/" ++ createBlobId hash encode fileBytes)
          fileBytes = false →
        (uploadImage putR hash encode nowMs fileBytes metaBytes
            publicKey).1 = Except.error () ∧
          ∀ p c, UploadStep.putMeta p c ∉
            (uploadImage putR hash encode nowMs fileBytes metaBytes
              publicKey).2) ∧
      (∀ p c, UploadStep.putMeta p c ∈
          (uploadImage putR hash encode nowMs fileBytes metaBytes
            publicKey).2 →
        putR ("/pub/pubky.app/blobs/" ++ createBlobId hash encode fileBytes)
            fileBytes = true ∧
          ∃ pre post,
            (uploadImage putR hash encode nowMs fileBytes metaBytes
                publicKey).2 = pre ++ UploadStep.putMeta p c :: post ∧
              UploadStep.putBlob
                ("/pub/pubky.app/blobs/" ++ createBlobId hash encode fileBytes)
                fileBytes ∈ pre) ∧
      ∀ p, UploadStep.deleteBlob p ∉
        (uploadImage putR hash encode nowMs fileBytes metaBytes publicKey).2 := by
  by_cases hblob : putR
      ("/pub/pubky.app/blobs/" ++ createBlobId hash encode fileBytes)
      fileBytes = true
  · have htr : (uploadImage putR hash encode nowMs fileBytes metaBytes
        publicKey).2 =
        [UploadStep.putBlob
            ("/pub/pubky.app/blobs/" ++ createBlobId hash encode fileBytes)
            fileBytes,
          UploadStep.putMeta
            ("/pub/pubky.app/files/" ++ generateTimestampId nowMs)
            metaBytes] := by
      simp only [uploadImage]
      rw [if_pos hblob]
      by_cases hmeta : putR
          ("/pub/pubky.app/files/" ++ generateTimestampId nowMs)
          metaBytes = true
      · rw [if_pos hmeta]
      · rw [if_neg hmeta]
    refine ⟨fun hfalse => absurd hblob (by simp [hfalse]), ?_, ?_⟩
    · intro p c hmem
      rw [htr] at hmem
      simp only [List.mem_cons, List.not_mem_nil, or_false] at hmem
      have hmem2 : p = "/pub/pubky.app/files/" ++ generateTimestampId nowMs ∧
          c = metaBytes := by
        rcases hmem with h | h
        · cases (by simpa using h : False)
        · simpa using h
      obtain ⟨hp, hc⟩ := hmem2
      refine ⟨hblob,
        [UploadStep.putBlob
          ("/pub/pubky.app/blobs/" ++ createBlobId hash encode fileBytes)
          fileBytes], [], ?_, by simp⟩
      rw [htr, hp, hc]
      rfl
    · intro p
      rw [htr]
      simp
  · have hup : uploadImage putR hash encode nowMs fileBytes metaBytes
        publicKey =
        (Except.error (),
          [UploadStep.putBlob
            ("/pub/pubky.app/blobs/" ++ createBlobId hash encode fileBytes)
            fileBytes]) := by
      simp only [uploadImage]
      rw [if_neg hblob]
    refine ⟨fun _ => ⟨by rw [hup], fun p c => by rw [hup]; simp⟩,
      fun p c hmem => ?_, fun p => by rw [hup]; simp⟩
    rw [hup] at hmem
    simp at hmem

/-- Witness for C9 at a runtime oracle that always fails the `put`: the
blob write fails, the call raises, and the trace holds no metadata write. -/
theorem uploadImage_blob_then_metadata_witness :
    ((fun (_ : String) (_ : List Nat) => false)
          ("/pub/pubky.app/blobs/" ++
            createBlobId (fun b => b) (fun _ => "BLOBID") [9]) [9] = false) ∧
      (uploadImage (fun _ _ => false) (fun b => b) (fun _ => "BLOBID")
          1712345678901 [9] [1] "pk").1 = Except.error () ∧
        ∀ p c, UploadStep.putMeta p c ∉
          (uploadImage (fun _ _ => false) (fun b => b) (fun _ => "BLOBID")
            1712345678901 [9] [1] "pk").2 :=
  ⟨rfl,
    (uploadImage_blob_then_metadata (fun _ _ => false) (fun b => b)
        (fun _ => "BLOBID") 1712345678901 [9] [1] "pk").1 rfl⟩

/-! ### Lemmas about the timestamp identifier -/

theorem toBase32Aux_digit_lt (fuel n : Nat) :
    ∀ d ∈ toBase32Aux fuel n, d < 32 := by
  induction fuel generalizing n with
  | zero => intro d hd; simp [toBase32Aux] at hd
  | succ fuel ih =>
    intro d hd
    cases n with
    | zero => simp [toBase32Aux] at hd
    | succ m =>
      rw [toBase32Aux] at hd
      rcases List.mem_cons.mp hd with h | h
      · rw [h]; exact Nat.mod_lt _ (by omega)
      · exact ih _ d h

theorem toBase32Aux_length_le (fuel n k : Nat) (h : n < 32 ^ k) :
    (toBase32Aux fuel n).length ≤ k := by
  induction fuel generalizing n k with
  | zero => simp [toBase32Aux]
  | succ fuel ih =>
    cases n with
    | zero => simp [toBase32Aux]
    | succ m =>
      cases k with
      | zero => simp at h
      | succ k =>
        rw [toBase32Aux]
        simp only [List.length_cons]
        have hdiv : (m + 1) / 32 < 32 ^ k := by
          rw [Nat.div_lt_iff_lt_mul (by omega : 0 < 32)]
          calc m + 1 < 32 ^ (k + 1) := h
            _ = 32 ^ k * 32 := by rw [Nat.pow_succ]
        exact Nat.succ_le_succ (ih _ k hdiv)

theorem toBase32Aux_foldr (fuel n : Nat) (h : n ≤ fuel) :
    (toBase32Aux fuel n).foldr (fun d acc => acc * 32 + d) 0 = n := by
  induction fuel generalizing n with
  | zero =>
    interval_cases n
    simp [toBase32Aux]
  | succ fuel ih =>
    cases n with
    | zero => simp [toBase32Aux]
    | succ m =>
      rw [toBase32Aux]
      simp only [List.foldr_cons]
      have hdiv : (m + 1) / 32 ≤ fuel := by
        have := Nat.div_lt_self (by omega : 0 < m + 1) (by omega : 1 < 32)
        omega
      rw [ih _ hdiv]
      have := Nat.div_add_mod (m + 1) 32
      omega

theorem base32Val_reverse (l : List Nat) :
    base32Val l.reverse = l.foldr (fun d acc => acc * 32 + d) 0 := by
  unfold base32Val
  rw [List.foldl_reverse]

theorem base32Val_acc (l : List Nat) (a : Nat) :
    l.foldl (fun x d => x * 32 + d) a = a * 32 ^ l.length + base32Val l := by
  induction l generalizing a with
  | nil => simp [base32Val]
  | cons d t ih =>
    show List.foldl (fun x d => x * 32 + d) (a * 32 + d) t = _
    rw [ih]
    have hval : base32Val (d :: t) = d * 32 ^ t.length + base32Val t := by
      show List.foldl (fun x d => x * 32 + d) (0 * 32 + d) t = _
      rw [ih]
      ring_nf
    rw [hval]
    simp only [List.length_cons, Nat.pow_succ]
    ring

theorem base32Val_cons (d : Nat) (t : List Nat) :
    base32Val (d :: t) = d * 32 ^ t.length + base32Val t := by
  show List.foldl (fun x d => x * 32 + d) (0 * 32 + d) t = _
  rw [base32Val_acc]
  ring_nf

theorem base32Val_lt (l : List Nat) (h : ∀ d ∈ l, d < 32) :
    base32Val l < 32 ^ l.length := by
  induction l with
  | nil => simp [base32Val]
  | cons d t ih =>
    rw [base32Val_cons]
    have hd : d < 32 := h d (by simp)
    have ht := ih (fun x hx => h x (by simp [hx]))
    calc d * 32 ^ t.length + base32Val t
        < d * 32 ^ t.length + 32 ^ t.length := by omega
      _ = (d + 1) * 32 ^ t.length := by ring
      _ ≤ 32 * 32 ^ t.length := by
          exact Nat.mul_le_mul_right _ (by omega)
      _ = 32 ^ (d :: t).length := by
          simp only [List.length_cons]
          rw [Nat.pow_succ]
          ring

theorem base32Val_replicate_zero (k : Nat) (l : List Nat) :
    base32Val (List.replicate k 0 ++ l) = base32Val l := by
  unfold base32Val
  rw [List.foldl_append]
  have : List.foldl (fun x d => x * 32 + d) 0 (List.replicate k 0) = 0 := by
    induction k with
    | zero => rfl
    | succ k ihk =>
      rw [List.replicate_succ]
      simpa using ihk
  rw [this]

theorem digitList_spec (n : Nat) (h : n < 32 ^ 13) :
    (digitList n).length ≤ 13 ∧ (∀ d ∈ digitList n, d < 32) ∧
      base32Val (digitList n) = n ∧ digitList n ≠ [] := by
  unfold digitList
  by_cases h0 : n = 0
  · subst h0
    refine ⟨by simp, by simp, by simp [base32Val], by simp⟩
  · rw [if_neg h0]
    refine ⟨?_, ?_, ?_, ?_⟩
    · rw [List.length_reverse]
      exact toBase32Aux_length_le n n 13 h
    · intro d hd
      exact toBase32Aux_digit_lt n n d (List.mem_reverse.mp hd)
    · rw [base32Val_reverse]
      exact toBase32Aux_foldr n n (le_refl n)
    · intro habs
      have := toBase32Aux_foldr n n (le_refl n)
      rw [List.reverse_eq_nil_iff.mp habs] at this
      simp at this
      exact h0 this.symm

theorem digits13_spec (n : Nat) (h : n < 32 ^ 13) :
    (digits13 n).length = 13 ∧ (∀ d ∈ digits13 n, d < 32) ∧
      base32Val (digits13 n) = n := by
  obtain ⟨hlen, hdig, hval, _⟩ := digitList_spec n h
  unfold digits13
  refine ⟨?_, ?_, ?_⟩
  · rw [List.length_append, List.length_replicate]
    omega
  · intro d hd
    rcases List.mem_append.mp hd with hd | hd
    · rw [List.eq_of_mem_replicate hd]
      omega
    · exact hdig d hd
  · rw [base32Val_replicate_zero]
    exact hval

theorem padStart13_digits (n : Nat) :
    padStart13 (jsToString32 n) = (digits13 n).map base32DigitChar := by
  by_cases h0 : n = 0
  · subst h0
    decide
  · unfold padStart13 jsToString32 digits13 digitList
    rw [if_neg h0, if_neg h0]
    have hf0 : base32DigitChar 0 = '0' := rfl
    simp [List.map_append, List.map_replicate, List.map_reverse, hf0]

theorem base32DigitChar_strict_mono :
    ∀ d1, d1 < 32 → ∀ d2, d2 < 32 → d1 < d2 →
      base32DigitChar d1 < base32DigitChar d2 := by decide

theorem base32DigitChar_in_alphabet :
    ∀ d, d < 32 → base32DigitChar d ∈ base32Alphabet.data := by decide

theorem mapped_digits_le (t1 t2 : List Nat) (hlen : t1.length = t2.length)
    (h1 : ∀ d ∈ t1, d < 32) (h2 : ∀ d ∈ t2, d < 32)
    (hval : base32Val t1 ≤ base32Val t2) :
    t1.map base32DigitChar ≤ t2.map base32DigitChar := by
  induction t1 generalizing t2 with
  | nil =>
    have ht2 : t2 = [] := List.length_eq_zero.mp (by simpa using hlen.symm)
    subst ht2
    exact le_refl _
  | cons d1 l1 ih =>
    cases t2 with
    | nil => simp at hlen
    | cons d2 l2 =>
      have hlen2 : l1.length = l2.length := by simpa using hlen
      have hd1 : d1 < 32 := h1 d1 (by simp)
      have hd2 : d2 < 32 := h2 d2 (by simp)
      have hv1 := base32Val_cons d1 l1
      have hv2 := base32Val_cons d2 l2
      rcases Nat.lt_trichotomy d1 d2 with hlt | heq | hgt
      · apply le_of_lt
        show List.Lex (· < ·) _ _
        exact List.Lex.rel (base32DigitChar_strict_mono d1 hd1 d2 hd2 hlt)
      · subst heq
        have hrest : base32Val l1 ≤ base32Val l2 := by
          rw [hv1, hv2, hlen2] at hval
          omega
        have := ih l2 hlen2 (fun x hx => h1 x (List.mem_cons_of_mem _ hx))
          (fun x hx => h2 x (List.mem_cons_of_mem _ hx)) hrest
        simpa using List.cons_le_cons (base32DigitChar d1) this
      · exfalso
        have hb1 : base32Val l2 < 32 ^ l2.length :=
          base32Val_lt l2 (fun x hx => h2 x (by simp [hx]))
        have : base32Val (d2 :: l2) < base32Val (d1 :: l1) := by
          rw [hv1, hv2, hlen2]
          have hmul : (d2 + 1) * 32 ^ l2.length ≤ d1 * 32 ^ l2.length :=
            Nat.mul_le_mul_right _ (by omega)
          calc d2 * 32 ^ l2.length + base32Val l2
              < d2 * 32 ^ l2.length + 32 ^ l2.length := by omega
            _ = (d2 + 1) * 32 ^ l2.length := by ring
            _ ≤ d1 * 32 ^ l2.length := hmul
            _ ≤ d1 * 32 ^ l2.length + base32Val l1 := by omega
        omega

/-- C8: as a function of the `Date.now()` millisecond clock (for any
wall-clock value whose microsecond form stays below 2^53, where the IEEE
double arithmetic of the source is exact), `generateTimestampId` returns a
string of exactly 13 characters drawn from the base-32 alphabet
0-9 A-V, and the ids of two invocations at earlier-or-equal respectively
later wall-clock times are lexicographically non-decreasing. -/
theorem generateTimestampId_spec (t1 t2 : Nat)
    (h1 : t1 * 1000 < 2 ^ 53) (h2 : t2 * 1000 < 2 ^ 53) (hle : t1 ≤ t2) :
    (generateTimestampId t1).length = 13 ∧
      (∀ c ∈ (generateTimestampId t1).data, c ∈ base32Alphabet.data) ∧
      generateTimestampId t1 ≤ generateTimestampId t2 := by
  have hbound : (2 : Nat) ^ 53 ≤ 32 ^ 13 := by norm_num
  have hn1 : t1 * 1000 < 32 ^ 13 := lt_of_lt_of_le h1 hbound
  have hn2 : t2 * 1000 < 32 ^ 13 := lt_of_lt_of_le h2 hbound
  obtain ⟨hlen1, hdig1, hval1⟩ := digits13_spec (t1 * 1000) hn1
  obtain ⟨hlen2, hdig2, hval2⟩ := digits13_spec (t2 * 1000) hn2
  have hid1 : generateTimestampId t1 =
      String.mk ((digits13 (t1 * 1000)).map base32DigitChar) := by
    unfold generateTimestampId
    rw [padStart13_digits]
  have hid2 : generateTimestampId t2 =
      String.mk ((digits13 (t2 * 1000)).map base32DigitChar) := by
    unfold generateTimestampId
    rw [padStart13_digits]
  refine ⟨?_, ?_, ?_⟩
  · rw [hid1]
    show ((digits13 (t1 * 1000)).map base32DigitChar).length = 13
    rw [List.length_map]
    exact hlen1
  · intro c hc
    rw [hid1] at hc
    have hc2 : c ∈ (digits13 (t1 * 1000)).map base32DigitChar := hc
    obtain ⟨d, hd, hdc⟩ := List.mem_map.mp hc2
    rw [← hdc]
    exact base32DigitChar_in_alphabet d (hdig1 d hd)
  · rw [hid1, hid2, String.le_iff_toList_le]
    show (digits13 (t1 * 1000)).map base32DigitChar ≤
      (digits13 (t2 * 1000)).map base32DigitChar
    apply mapped_digits_le _ _ (by omega) hdig1 hdig2
    rw [hval1, hval2]
    omega

/-- Witness for C8 at two consecutive concrete millisecond clocks. -/
theorem generateTimestampId_spec_witness :
    ((1712345678901 : Nat) * 1000 < 2 ^ 53 ∧
        (1712345678902 : Nat) * 1000 < 2 ^ 53 ∧
        (1712345678901 : Nat) ≤ 1712345678902) ∧
      (generateTimestampId 1712345678901).length = 13 ∧
        (∀ c ∈ (generateTimestampId 1712345678901).data,
          c ∈ base32Alphabet.data) ∧
        generateTimestampId 1712345678901 ≤ generateTimestampId 1712345678902 :=
  ⟨⟨by norm_num, by norm_num, by norm_num⟩,
    generateTimestampId_spec 1712345678901 1712345678902 (by norm_num)
      (by norm_num) (by norm_num)⟩
